import Mathlib

set_option maxRecDepth 4000

/-!
Verification development for the regression-scholar RAG pipeline.

The Lean definitions below are shallow embeddings of the Python functions in
  - backend/src/processing.py   (section segmentation and chunking)
  - backend/src/retrieval.py    (fallback concatenation answer)
  - src/generation.py           (ScholarAI.generate_expert_answer and helpers)
  - backend/app/services/scholar_service.py (chunks_to_sources)

Python string/dict primitives are modelled at the character-list level so that
all definitions are executable and kernel-computable:
  - str.split()        -> pyWords        (split on whitespace runs, drop empties)
  - str.split("\n")    -> pySplitLines   (split at each newline, keep empties)
  - str.strip()        -> pyStrip        (trim whitespace at both ends)
  - str.lower()        -> pyLower        (character-wise lowercasing)
  - sep.join(xs)       -> joinSep sep xs
  - s[:n]              -> pyTake s n
  - dict               -> insertion-ordered association list, unique keys
Machine floats only ever flow through comparisons (sorting by similarity
score), so scores are modelled as `Int`; `sorted(..., reverse=True)` is
the stable descending sort of Python, modelled by a stable insertion sort.
-/

/-- Python whitespace test used by `str.split()` / `str.strip()` (ASCII set). -/
def pyIsSpace (c : Char) : Bool :=
  c = ' ' || c = '\t' || c = '\n' || c = '\r' || c = '\x0b' || c = '\x0c'

/-- Helper for `pyWords`: accumulates the current word (reversed) while
scanning the character list. -/
def wordsAux : List Char → List Char → List String
  | [], acc => if acc.isEmpty then [] else [String.mk acc.reverse]
  | c :: cs, acc =>
    if pyIsSpace c then
      if acc.isEmpty then wordsAux cs [] else String.mk acc.reverse :: wordsAux cs []
    else wordsAux cs (c :: acc)

/-- Python `s.split()` with no argument: split on runs of whitespace and
drop empty pieces. -/
def pyWords (s : String) : List String := wordsAux s.data []

/-- Helper for `pySplitLines`: split a character list at each newline. -/
def linesAux : List Char → List Char → List String
  | [], acc => [String.mk acc.reverse]
  | c :: cs, acc =>
    if c = '\n' then String.mk acc.reverse :: linesAux cs []
    else linesAux cs (c :: acc)

/-- Python `s.split("\n")`: split at every newline, keeping empty pieces. -/
def pySplitLines (s : String) : List String := linesAux s.data []

/-- Python `s.strip()` on a character list: drop whitespace at both ends. -/
def charStrip (l : List Char) : List Char :=
  ((l.dropWhile pyIsSpace).reverse.dropWhile pyIsSpace).reverse

/-- Python `s.strip()`. -/
def pyStrip (s : String) : String := String.mk (charStrip s.data)

/-- Python `s.lower()` (ASCII lowercasing). -/
def pyLower (s : String) : String := String.mk (s.data.map Char.toLower)

/-- Python `sep.join(xs)`. -/
def joinSep (sep : String) : List String → String
  | [] => ""
  | [a] => a
  | a :: b :: rest => a ++ sep ++ joinSep sep (b :: rest)

/-- Python `s[:n]`. -/
def pyTake (s : String) (n : Nat) : String := String.mk (s.data.take n)

/-- Python `s.split("v")[0]`: the prefix of `s` up to (excluding) the first
occurrence of the character `v`. -/
def pySplitHeadV (s : String) : String := String.mk (s.data.takeWhile (fun c => c ≠ 'v'))

/-! ## backend/src/processing.py -/

/-- Fixed vocabulary of academic section names (`SECTION_HEADERS`,
processing.py lines 13-18). -/
def SECTION_HEADERS : List String :=
  ["abstract", "introduction", "background", "related work",
   "method", "methods", "methodology", "approach",
   "model", "models", "algorithm",
   "experiments", "experimental setup", "results", "evaluation",
   "discussion", "conclusion", "conclusions"]

/-- Model of `clean_text` (processing.py lines 20-23): `replace("\n", " ")`, then
`re.sub(r"\s", " ", text)` (every whitespace character becomes one space;
runs are not collapsed), then `strip()`.  The initial newline replacement is
subsumed by the whitespace substitution. -/
def clean_text (text : String) : String :=
  String.mk (charStrip (text.data.map (fun c => if pyIsSpace c then ' ' else c)))

/-- Model of `line.strip().lower()` computed for every scanned line in
`split_into_sections` (processing.py line 52). -/
def cleanLine (line : String) : String := pyLower (pyStrip line)

/-- Header test of `split_into_sections` (processing.py line 55): the
trimmed lowercased line starts with a vocabulary entry and is shorter than
50 characters. -/
def isHeaderLine (line : String) : Bool :=
  SECTION_HEADERS.any (fun h => h.data.isPrefixOf (cleanLine line).data)
    && decide ((cleanLine line).length < 50)

/-- Insertion-ordered dictionary from section label to accumulated lines,
modelling the Python dict `sections`. -/
def SecDict : Type := List (String × List String)

/-- Python `sections[k] = []`: overwrite in place if the key exists
(keeping its position), else append a new entry. -/
def dictSet : SecDict → String → SecDict
  | [], k => [(k, [])]
  | (k', v) :: rest, k =>
    if k' = k then (k, []) :: rest else (k', v) :: dictSet rest k

/-- Python `sections[k].append(line)`.  In `split_into_sections` the key is
always the current section label, which is always present (the dict starts
with `"unknown"` and every header immediately inserts its own label), so the
missing-key `KeyError` case is unreachable; it is modelled as a no-op. -/
def dictAppend : SecDict → String → String → SecDict
  | [], _, _ => []
  | (k', v) :: rest, k, line =>
    if k' = k then (k', v ++ [line]) :: rest else (k', v) :: dictAppend rest k line

/-- Dictionary lookup (Python `sections[k]` / `k in sections`). -/
def dictFind (d : SecDict) (k : String) : Option (List String) :=
  (d.find? (fun kv => kv.1 = k)).map (fun kv => kv.2)

/-- Line loop of `split_into_sections` (processing.py lines 51-59):
a header line becomes the new current section with a fresh (reset) bucket;
any other line is appended to the bucket of the current section. -/
def splitGo : List String → String → SecDict → SecDict
  | [], _, secs => secs
  | l :: ls, cur, secs =>
    if isHeaderLine l then splitGo ls (cleanLine l) (dictSet secs (cleanLine l))
    else splitGo ls cur (dictAppend secs cur l)

/-- Model of `split_into_sections` (processing.py lines 41-66): split the text into
lines, accumulate lines under the current section label starting from
`"unknown"`, then join each bucket with single spaces. -/
def split_into_sections (text : String) : List (String × String) :=
  (splitGo (pySplitLines text) "unknown" [("unknown", [])]).map
    (fun kv => (kv.1, joinSep " " kv.2))

/-- Word loop of `chunk_text` (processing.py lines 79-83): append each word
to the current buffer; once the buffer reaches `max_tokens` words, emit it
and reset.  Returns the emitted full buffers and the leftover buffer. -/
def chunkLoop (max_tokens : Nat) : List String → List String → List (List String) × List String
  | [], cur => ([], cur)
  | w :: ws, cur =>
    let cur2 := cur ++ [w]
    if max_tokens ≤ cur2.length then
      let r := chunkLoop max_tokens ws []
      (cur2 :: r.1, r.2)
    else chunkLoop max_tokens ws cur2

/-- Word-buffer view of `chunk_text` (processing.py lines 68-88): the final
buffer is kept only if it holds at least `min_tokens` words. -/
def chunkWordBufs (min_tokens max_tokens : Nat) (words : List String) : List (List String) :=
  let r := chunkLoop max_tokens words []
  if min_tokens ≤ r.2.length then r.1 ++ [r.2] else r.1

/-- Model of `chunk_text` (processing.py lines 68-88): whitespace-tokenize, window
into buffers, join each emitted buffer with single spaces.  Defaults in the
source are `min_tokens = 300`, `max_tokens = 800`. -/
def chunk_text (text : String) (min_tokens max_tokens : Nat) : List String :=
  (chunkWordBufs min_tokens max_tokens (pyWords text)).map (joinSep " ")

/-- Section labels skipped by `process_all_papers` (processing.py line 117). -/
def SKIP_SECTIONS : List String := ["references", "acknowledgements", "acknowledgments"]

/-- One chunk record produced by `process_all_papers` (processing.py lines
121-129).  The Python key `section` is a Lean keyword, hence `sectionLabel`. -/
structure ChunkData where
  text : String
  paper_id : String
  paper_title : String
  authors : List String
  sectionLabel : String
  chunk_index : Nat
deriving DecidableEq, Repr

/-- Record construction for the chunks of one section, with consecutive
`chunk_index` values (processing.py lines 121-132). -/
def mkChunkRecords (pid title : String) (authors : List String) (sec : String) :
    List String → Nat → List ChunkData
  | [], _ => []
  | c :: cs, idx => ⟨c, pid, title, authors, sec, idx⟩ :: mkChunkRecords pid title authors sec cs (idx + 1)

/-- Per-paper section loop of `process_all_papers` (processing.py lines
113-132): clean each section text, skip the labels in `SKIP_SECTIONS`, chunk
the rest, and emit chunk records with a per-paper running `chunk_index`. -/
def processPaperSectionsGo (pid title : String) (authors : List String) :
    List (String × String) → Nat → List ChunkData
  | [], _ => []
  | (sec, text) :: rest, idx =>
    if sec ∈ SKIP_SECTIONS then processPaperSectionsGo pid title authors rest idx
    else
      let cs := chunk_text (clean_text text) 300 800
      mkChunkRecords pid title authors sec cs idx
        ++ processPaperSectionsGo pid title authors rest (idx + cs.length)

/-- Chunk emission of `process_all_papers` for a single paper, taking the
section list produced by `split_into_sections` (processing.py lines 108-132). -/
def process_paper_sections (pid title : String) (authors : List String)
    (sections : List (String × String)) : List ChunkData :=
  processPaperSectionsGo pid title authors sections 0

/-! ## src/generation.py and backend/src/retrieval.py

`ScholarAI.generate_expert_answer` is modelled as a pure state-passing
function.  The retriever and the language-model endpoint are the two external
calls; they are passed in as functions, and the result records whether each
was invoked (`retrievalCalled`, `promptSent`).  A model exception is the
`Except.error` case of the invocation function; the `except Exception`
handler of the source corresponds to matching on that case, so no failure
escapes.  Similarity scores are floats in the source but are only ever
compared, so they are modelled as `Int`. -/

/-- Chunk metadata as consulted by generation.py: only `similarity_score`
is read (with default 0 when the key is missing). -/
structure GMeta where
  similarity_score : Option Int
deriving DecidableEq, Repr

/-- A retrieved chunk record `{text, metadata, id}` as produced by
`RetrievalSystem.retrieve` (retrieval.py lines 34-41); `metadata` is absent
when the record carries no `metadata` key. -/
structure GChunk where
  text : String
  metadata : Option GMeta
  id : String
deriving DecidableEq, Repr

/-- Sort key of `_sort_chunks_by_relevance` (generation.py lines 62-67):
`c.get("metadata", {}).get("similarity_score", 0)`. -/
def scoreKey (c : GChunk) : Int :=
  match c.metadata with
  | none => 0
  | some m => m.similarity_score.getD 0

/-- Stable insertion of one chunk into a descending-by-score list: the new
element passes over strictly greater scores only, so among equal scores the
earlier element stays first. -/
def insertByScore (c : GChunk) : List GChunk → List GChunk
  | [] => [c]
  | d :: ds => if scoreKey c < scoreKey d then d :: insertByScore c ds else c :: d :: ds

/-- Model of `_sort_chunks_by_relevance` (generation.py lines 62-67):
`sorted(chunks, key=..., reverse=True)`.  The Python `sorted` is stable and
`reverse=True` keeps the original order among equal keys, which is exactly
what this stable insertion sort computes. -/
def sort_chunks_by_relevance : List GChunk → List GChunk
  | [] => []
  | c :: cs => insertByScore c (sort_chunks_by_relevance cs)

/-- Loop of `_deduplicate_chunks` (generation.py lines 53-60): keep the
first chunk for each trim-normalized text. -/
def dedupGo : List GChunk → List String → List GChunk
  | [], _ => []
  | c :: cs, seen =>
    let t := pyStrip c.text
    if t ∈ seen then dedupGo cs seen else c :: dedupGo cs (t :: seen)

/-- Model of `_deduplicate_chunks` (generation.py lines 53-60). -/
def deduplicate_chunks (chunks : List GChunk) : List GChunk := dedupGo chunks []

/-- Model of `_prepare_context` (generation.py lines 69-77): deduplicate, re-sort by
relevance, and join the texts with single spaces.  No truncation is applied;
the combined text is returned whole. -/
def prepare_context (chunks : List GChunk) : String :=
  joinSep " " ((sort_chunks_by_relevance (deduplicate_chunks chunks)).map (fun c => c.text))

/-- Numbered evidence lines (an f-string bracket index followed by the chunk text) of `_build_prompt`
(generation.py lines 80-83), numbering from `start + 1`. -/
def numberedLines : List GChunk → Nat → List String
  | [], _ => []
  | c :: cs, i => ("[" ++ toString (i + 1) ++ "] " ++ c.text) :: numberedLines cs (i + 1)

/-- Numbered context of `_build_prompt` (generation.py lines 80-83):
the numbered evidence lines joined with blank lines. -/
def numbered_context (chunks : List GChunk) : String :=
  joinSep "\n\n" (numberedLines chunks 0)

/-- Fixed template text of `_build_prompt` before the question. -/
def PROMPT_HEAD : String :=
  "\nYou are an expert researcher in statistical learning and regression analysis.\n\nCRITICAL INSTRUCTIONS:\n1. Answer ONLY using information from the provided papers\n2. Include ALL relevant technical terminology (L1, L2, regularization, etc.)\n3. Provide mathematical formulations when relevant\n4. Cite sources using [1], [2], etc.\n5. Be comprehensive but precise\n\nQuestion: "

/-- Fixed template text of `_build_prompt` between the question and the
numbered evidence list. -/
def PROMPT_MID : String := "\n\nResearch Papers:\n"

/-- Fixed template text of `_build_prompt` after the numbered evidence list. -/
def PROMPT_TAIL : String :=
  "\n\nProvide a thorough answer covering:\n- Clear definitions with proper terminology\n- Mathematical formulation (if applicable)\n- Key properties and characteristics\n- Practical implications\n- Comparisons (if asked)\n\nAnswer:\n"

/-- Model of `_build_prompt` (generation.py lines 79-114): the f-string template with
the query and the numbered context spliced in. -/
def build_prompt (query : String) (chunks : List GChunk) : String :=
  PROMPT_HEAD ++ query ++ PROMPT_MID ++ numbered_context chunks ++ PROMPT_TAIL

/-- Loop of `RetrievalSystem.simple_concat_answer` (retrieval.py lines
73-90): accumulate chunk texts while the running character total stays
within `max_chars`; on the first text that would overflow, keep only the
remaining budget worth of characters, append `"..."`, and stop. -/
def simpleConcatGo (max_chars : Nat) : List GChunk → Nat → List String
  | [], _ => []
  | c :: cs, total =>
    let text := c.text
    if max_chars < total + text.length then
      [pyTake text (max_chars - total) ++ "..."]
    else text :: simpleConcatGo max_chars cs (total + text.length)

/-- Model of `RetrievalSystem.simple_concat_answer` (retrieval.py lines 73-90); the
source default for `max_chars` is 800.  The collected pieces are joined with
single spaces. -/
def simple_concat_answer (chunks : List GChunk) (max_chars : Nat) : String :=
  joinSep " " (simpleConcatGo max_chars chunks 0)

/-- In-memory answer cache `self.cache`: an insertion-ordered map from the
raw query string to the stored `(answer, chunks)` pair. -/
structure ScholarState where
  cache : List (String × String × List GChunk)
deriving DecidableEq, Repr

/-- Python `query in self.cache` / `self.cache[query]`. -/
def cacheLookup (s : ScholarState) (q : String) : Option (String × List GChunk) :=
  (s.cache.find? (fun kv => kv.1 = q)).map (fun kv => kv.2)

/-- Python `self.cache[query] = value`: overwrite in place if present, else
append. -/
def cacheInsert : List (String × String × List GChunk) → String → String × List GChunk →
    List (String × String × List GChunk)
  | [], q, v => [(q, v)]
  | (q', v') :: rest, q, v =>
    if q' = q then (q, v) :: rest else (q', v') :: cacheInsert rest q v

/-- Observable outcome of one `generate_expert_answer` call: the returned
pair, the cache state afterwards (`_save_cache` persists it; file IO is not
modelled), whether the retriever was called, and the prompt sent to the
model endpoint (if it was invoked at all). -/
structure GenResult where
  answer : String
  chunks : List GChunk
  state : ScholarState
  retrievalCalled : Bool
  promptSent : Option String
deriving DecidableEq, Repr

/-- Model of `ScholarAI.generate_expert_answer` (generation.py lines 133-176).
`retrieve` stands for `self.retriever.retrieve(query, k=self.top_k)` and
`invoke` for the `client.models.generate_content` call on the built prompt;
`Except.error` is the exception case caught by the handler, which falls back
to `simple_concat_answer` with its source default `max_chars = 800`.  The
source computes `_ = self._prepare_context(chunks)` and discards the result;
the prompt is built from the retrieved chunks as-is. -/
def generate_expert_answer (retrieve : String → List GChunk)
    (invoke : String → Except String String) (s : ScholarState) (query : String) : GenResult :=
  match cacheLookup s query with
  | some (ans, cs) => ⟨ans, cs, s, false, none⟩
  | none =>
    let chunks := retrieve query
    if chunks.isEmpty then
      ⟨"No relevant papers found for this query.", [], s, true, none⟩
    else
      let prompt := build_prompt query chunks
      let answer_text :=
        match invoke prompt with
        | Except.ok t => t
        | Except.error _ => simple_concat_answer chunks 800
      ⟨answer_text, chunks, ⟨cacheInsert s.cache query (answer_text, chunks)⟩, true, some prompt⟩

/-! ## backend/app/services/scholar_service.py — chunks_to_sources

Heterogeneous chunk records are modelled by a record of the exact keys the
function consults; a chained Python `x or y` keeps its left operand when that
operand is truthy (non-empty string, non-empty list) and otherwise moves on.
A metadata dict is modelled by its consulted keys plus a flag for the
presence of any other key (which makes a dict truthy in Python even when all
consulted keys are missing). -/

/-- A Python value found under an authors key: either a string or a
list/tuple of strings. -/
inductive AVal where
  | str (s : String)
  | list (l : List String)
deriving DecidableEq, Repr

/-- The metadata keys consulted by `chunks_to_sources`.  The Python key
`section` is a Lean keyword, hence `sectionLabel`. -/
structure SMeta where
  paper_title : Option String
  title : Option String
  authors : Option AVal
  author : Option AVal
  sectionLabel : Option String
  part : Option String
  link : Option String
  url : Option String
  source : Option String
  paper_id : Option String
  id : Option String
  hasOtherKeys : Bool
deriving DecidableEq, Repr

/-- The empty metadata dict `{}`. -/
def emptySMeta : SMeta := ⟨none, none, none, none, none, none, none, none, none, none, none, false⟩

/-- The top-level keys consulted by `chunks_to_sources` on a dict record. -/
structure SChunk where
  paper_title : Option String
  title : Option String
  paper : Option String
  authors : Option AVal
  author : Option AVal
  sectionLabel : Option String
  chunk : Option String
  context : Option String
  excerpt : Option String
  link : Option String
  url : Option String
  source : Option String
  metadata : Option SMeta
  meta : Option SMeta
deriving DecidableEq, Repr

/-- One element of the input sequence: either a dict record or a value of
any other shape (skipped by the loop). -/
inductive PyItem where
  | dict (c : SChunk)
  | other
deriving DecidableEq, Repr

/-- Python truthiness of an optional string: `None` and `""` are falsy. -/
def truthyS : Option String → Bool
  | none => false
  | some s => decide (s ≠ "")

/-- Python `a or b` on optional strings: keep `a` when truthy, else `b`
(so the last falsy operand survives a fully-falsy chain). -/
def orS (a b : Option String) : Option String := if truthyS a then a else b

/-- Python truthiness of an optional authors value: `None`, `""` and the
empty list are falsy. -/
def truthyA : Option AVal → Bool
  | none => false
  | some (AVal.str s) => decide (s ≠ "")
  | some (AVal.list l) => decide (l ≠ [])

/-- Python `a or b` on optional authors values. -/
def orA (a b : Option AVal) : Option AVal := if truthyA a then a else b

/-- Python truthiness of an optional metadata dict: `None` and `{}` are
falsy. -/
def truthyM : Option SMeta → Bool
  | none => false
  | some m => decide (m ≠ emptySMeta)

/-- Model of the line `meta = chunk.get("metadata") or chunk.get("meta")` with
the empty dict as final fallback (scholar_service.py line 128). -/
def effMeta (c : SChunk) : SMeta :=
  if truthyM c.metadata then c.metadata.getD emptySMeta
  else if truthyM c.meta then c.meta.getD emptySMeta
  else emptySMeta

/-- Title resolution chain (scholar_service.py lines 130-136). -/
def titleOf (c : SChunk) : Option String :=
  orS c.paper_title (orS c.title (orS c.paper (orS (effMeta c).paper_title (effMeta c).title)))

/-- Authors resolution chain before normalization (scholar_service.py lines
138-143). -/
def authorsRaw (c : SChunk) : Option AVal :=
  orA c.authors (orA c.author (orA (effMeta c).authors (effMeta c).author))

/-- Authors value after the list/tuple comma-join normalization
(scholar_service.py lines 144-145); list elements are already strings, so
`str(a)` is the identity. -/
def authorsOf (c : SChunk) : Option String :=
  match authorsRaw c with
  | none => none
  | some (AVal.str s) => some s
  | some (AVal.list l) => some (joinSep ", " l)

/-- Section resolution chain (scholar_service.py lines 147-155); the source
lists `meta.get("section")` twice, which is kept here. -/
def sectionOf (c : SChunk) : Option String :=
  orS c.sectionLabel (orS (effMeta c).sectionLabel (orS c.chunk (orS c.context
    (orS c.excerpt (orS (effMeta c).sectionLabel (effMeta c).part)))))

/-- Link resolution chain over the explicit link keys (scholar_service.py
lines 157-164). -/
def linkChain (c : SChunk) : Option String :=
  orS c.link (orS c.url (orS c.source (orS (effMeta c).link (orS (effMeta c).url (effMeta c).source))))

/-- Final link value (scholar_service.py lines 157-175): when the explicit
chain is falsy and a truthy paper identifier exists, synthesize an arXiv
link from `str(paper_id).split("v")[0]`.  The identifier is a string, so the
`except` branch around the split is unreachable. -/
def linkOf (c : SChunk) : Option String :=
  let link := linkChain c
  if truthyS link then link
  else
    let pid := orS (effMeta c).paper_id (effMeta c).id
    if truthyS pid then some ("https://arxiv.org/abs/" ++ pySplitHeadV (pid.getD ""))
    else link

/-- Deduplication key (scholar_service.py line 178): the link when truthy,
else the `(title, section)` pair.  Both shapes are hashable in Python, so
the `TypeError` fallback that stringifies unhashable keys is unreachable. -/
def SKey : Type := String ⊕ (Option String × Option String)

instance : DecidableEq SKey := by
  unfold SKey
  infer_instance

/-- Key computation for one dict record. -/
def keyOf (c : SChunk) : SKey :=
  if truthyS (linkOf c) then Sum.inl ((linkOf c).getD "")
  else Sum.inr (titleOf c, sectionOf c)

/-- One output source record (scholar_service.py lines 188-195). -/
structure Source where
  paper_title : Option String
  authors : Option String
  sectionLabel : Option String
  link : Option String
deriving DecidableEq, Repr

/-- The source record appended for one dict record. -/
def srcOf (c : SChunk) : Source := ⟨titleOf c, authorsOf c, sectionOf c, linkOf c⟩

/-- Main loop of `chunks_to_sources` (scholar_service.py lines 126-195):
skip non-dict records, skip records whose key was already seen, append the
source record otherwise. -/
def ctsGo : List PyItem → List SKey → List Source
  | [], _ => []
  | PyItem.other :: rest, seen => ctsGo rest seen
  | PyItem.dict c :: rest, seen =>
    let key := keyOf c
    if key ∈ seen then ctsGo rest seen
    else srcOf c :: ctsGo rest (key :: seen)

/-- Model of `chunks_to_sources` (scholar_service.py lines 110-196); `none` models
the argument `None`, and `if not chunks: return []` returns the empty list
for both `None` and an empty sequence. -/
def chunks_to_sources : Option (List PyItem) → List Source
  | none => []
  | some items => if items.isEmpty then [] else ctsGo items []

/-- The dict records of the input, in order. -/
def dictRecords (items : List PyItem) : List SChunk :=
  items.filterMap (fun it => match it with | PyItem.dict c => some c | PyItem.other => none)

/-- Specification-level first-occurrence deduplication: keep each record
whose key has not appeared earlier in the list. -/
def dedupFirst : List SChunk → List SChunk
  | [] => []
  | c :: cs => c :: dedupFirst (cs.filter (fun d => decide (keyOf d ≠ keyOf c)))
termination_by l => l.length
decreasing_by
  simp only [List.length_cons]
  exact Nat.lt_succ_of_le (List.length_filter_le _ _)

/-- A dict record with every consulted key missing. -/
def emptySChunk : SChunk :=
  ⟨none, none, none, none, none, none, none, none, none, none, none, none, none, none⟩

/-- Specification helper for the segmenter: the cleaned labels of the
header lines, in order of appearance. -/
def headerLabels (lines : List String) : List String :=
  lines.filterMap (fun l => if isHeaderLine l then some (cleanLine l) else none)

/-- Specification helper for the segmenter: the non-header lines that
follow the last header labeled `k`, up to the next header.  Meaningful when
`k` occurs in `headerLabels lines`. -/
def bodyAfterLast (k : String) : List String → List String
  | [] => []
  | l :: ls =>
    if k ∈ headerLabels ls then bodyAfterLast k ls
    else if isHeaderLine l && decide (cleanLine l = k) then
      ls.takeWhile (fun x => !(isHeaderLine x))
    else bodyAfterLast k ls

/-- Lookup in the final label-to-text association produced by
`split_into_sections`. -/
def sectionsFind (secs : List (String × String)) (k : String) : Option String :=
  (secs.find? (fun kv => kv.1 = k)).map (fun kv => kv.2)

/-! ## Theorems -/

/-- Unfolding equation for the cons case of `chunkLoop`. -/
theorem chunkLoop_cons (m : Nat) (w : String) (ws cur : List String) :
    chunkLoop m (w :: ws) cur =
      if m ≤ (cur ++ [w]).length then
        ((cur ++ [w]) :: (chunkLoop m ws []).1, (chunkLoop m ws []).2)
      else chunkLoop m ws (cur ++ [w]) := by
  show (if m ≤ (cur ++ [w]).length then
      ((cur ++ [w]) :: (chunkLoop m ws []).1, (chunkLoop m ws []).2)
    else chunkLoop m ws (cur ++ [w])) =
    (if m ≤ (cur ++ [w]).length then
      ((cur ++ [w]) :: (chunkLoop m ws []).1, (chunkLoop m ws []).2)
    else chunkLoop m ws (cur ++ [w]))
  rfl

/-- Loop invariant of `chunk_text`: starting from a buffer shorter than
`max_tokens`, the loop emits exactly `(cur.length + ws.length) / max_tokens`
buffers, each holding exactly `max_tokens` words, and leaves
`(cur.length + ws.length) % max_tokens` words in the final buffer. -/
theorem chunkLoop_spec (m : Nat) (hm : 0 < m) :
    ∀ (ws cur : List String), cur.length < m →
      (chunkLoop m ws cur).1.length = (cur.length + ws.length) / m ∧
      (∀ b ∈ (chunkLoop m ws cur).1, b.length = m) ∧
      (chunkLoop m ws cur).2.length = (cur.length + ws.length) % m := by
  intro ws
  induction ws with
  | nil =>
    intro cur hcur
    simp [chunkLoop, Nat.div_eq_of_lt hcur, Nat.mod_eq_of_lt hcur]
  | cons w ws ih =>
    intro cur hcur
    have hwlen : (cur ++ [w]).length = cur.length + 1 := by simp
    have htot : cur.length + (w :: ws).length = cur.length + 1 + ws.length := by
      simp only [List.length_cons]
      omega
    rw [chunkLoop_cons]
    by_cases h : m ≤ (cur ++ [w]).length
    · have hlen : cur.length + 1 = m := by
        rw [hwlen] at h
        omega
      obtain ⟨h1, h2, h3⟩ := ih [] hm
      simp only [List.length_nil, Nat.zero_add] at h1 h3
      rw [if_pos h]
      have harg : cur.length + (w :: ws).length = ws.length + m := by
        simp only [List.length_cons]
        omega
      refine ⟨?_, ?_, ?_⟩
      · show ((cur ++ [w]) :: (chunkLoop m ws []).1).length = (cur.length + (w :: ws).length) / m
        rw [harg, Nat.add_div_right _ hm, List.length_cons, h1]
      · intro b hb
        rcases List.mem_cons.mp hb with rfl | hb
        · rw [hwlen, hlen]
        · exact h2 b hb
      · show (chunkLoop m ws []).2.length = (cur.length + (w :: ws).length) % m
        rw [harg, Nat.add_mod_right, h3]
    · rw [if_neg h]
      rw [hwlen] at h
      obtain ⟨h1, h2, h3⟩ := ih (cur ++ [w]) (by omega)
      rw [hwlen] at h1 h3
      refine ⟨?_, ?_, ?_⟩
      · rw [h1, htot]
      · exact h2
      · rw [h3, htot]

/-- C1: for every section text of `N` whitespace-separated words chunked
with `min_tokens = 300` and `max_tokens = 800`, `chunk_text` emits exactly
`N / 800` chunks plus one more iff `N % 800 ≥ 300` (a trailing remainder
below 300 words is dropped); every non-final word buffer has exactly 800
words and no buffer exceeds 800 words. -/
theorem chunk_text_window_spec (text : String) :
    chunk_text text 300 800 = (chunkWordBufs 300 800 (pyWords text)).map (joinSep " ") ∧
    (chunk_text text 300 800).length
      = (pyWords text).length / 800 + (if 300 ≤ (pyWords text).length % 800 then 1 else 0) ∧
    (chunkWordBufs 300 800 (pyWords text)).dropLast.all (fun b => b.length == 800) = true ∧
    (chunkWordBufs 300 800 (pyWords text)).all (fun b => decide (b.length ≤ 800)) = true := by
  obtain ⟨h1, h2, h3⟩ := chunkLoop_spec 800 (by norm_num) (pyWords text) [] (by simp)
  simp only [List.length_nil, Nat.zero_add] at h1 h3
  refine ⟨rfl, ?_, ?_, ?_⟩
  · rw [chunk_text, List.length_map, chunkWordBufs]
    by_cases hrem : 300 ≤ (chunkLoop 800 (pyWords text) []).2.length
    · rw [if_pos hrem, List.length_append, h1, List.length_singleton]
      rw [h3] at hrem
      rw [if_pos hrem]
    · rw [if_neg hrem, h1]
      rw [h3] at hrem
      rw [if_neg hrem, Nat.add_zero]
  · rw [List.all_eq_true]
    intro b hb
    rw [beq_iff_eq]
    rw [chunkWordBufs] at hb
    by_cases hrem : 300 ≤ (chunkLoop 800 (pyWords text) []).2.length
    · rw [if_pos hrem, List.dropLast_concat] at hb
      exact h2 b hb
    · rw [if_neg hrem] at hb
      exact h2 b (List.dropLast_subset _ hb)
  · rw [List.all_eq_true]
    intro b hb
    rw [decide_eq_true_eq]
    rw [chunkWordBufs] at hb
    by_cases hrem : 300 ≤ (chunkLoop 800 (pyWords text) []).2.length
    · rw [if_pos hrem, List.mem_append] at hb
      rcases hb with hb | hb
      · exact Nat.le_of_eq (h2 b hb)
      · simp only [List.mem_singleton] at hb
        subst hb
        rw [h3]
        exact Nat.le_of_lt (Nat.mod_lt _ (by norm_num))
    · rw [if_neg hrem] at hb
      exact Nat.le_of_eq (h2 b hb)

/-- Cache lookup after `self.cache[query] = value` finds exactly the stored
value. -/
theorem cacheLookup_cacheInsert (c : List (String × String × List GChunk))
    (q : String) (v : String × List GChunk) :
    cacheLookup ⟨cacheInsert c q v⟩ q = some v := by
  induction c with
  | nil => simp [cacheLookup, cacheInsert, List.find?]
  | cons kv rest ih =>
    by_cases h : kv.1 = q
    · simp [cacheLookup, cacheInsert, h, List.find?]
    · simp only [cacheLookup, cacheInsert] at ih ⊢
      rw [if_neg h]
      rw [List.find?_cons_of_neg _ (by simpa using h)]
      exact ih

/-- Length of a Python join: the summed piece lengths plus one separator
between consecutive pieces. -/
theorem joinSep_length (sep : String) :
    ∀ l : List String, (joinSep sep l).length = (l.map String.length).sum + sep.length * (l.length - 1) := by
  intro l
  induction l with
  | nil => simp [joinSep]
  | cons a t ih =>
    cases t with
    | nil => simp [joinSep]
    | cons b rest =>
      show (a ++ sep ++ joinSep sep (b :: rest)).length = _
      rw [String.length_append, String.length_append, ih]
      simp only [List.map_cons, List.sum_cons, List.length_cons, Nat.add_sub_cancel]
      rw [Nat.mul_succ]
      ring

/-- A Python join whose first piece is non-empty is non-empty. -/
theorem joinSep_ne_empty (sep : String) (a : String) (t : List String) (ha : a ≠ "") :
    joinSep sep (a :: t) ≠ "" := by
  intro heq
  have hlen : (joinSep sep (a :: t)).length = 0 := by rw [heq]; rfl
  rw [joinSep_length] at hlen
  simp only [List.map_cons, List.sum_cons] at hlen
  have : a.length = 0 := by omega
  apply ha
  cases a with
  | mk data =>
    cases data with
    | nil => rfl
    | cons c cs => simp [String.length] at this

/-- Unfolding equation for the cons case of `simpleConcatGo`. -/
theorem simpleConcatGo_cons (m : Nat) (c : GChunk) (cs : List GChunk) (total : Nat) :
    simpleConcatGo m (c :: cs) total =
      if m < total + c.text.length then [pyTake c.text (m - total) ++ "..."]
      else c.text :: simpleConcatGo m cs (total + c.text.length) := by
  show (if m < total + c.text.length then [pyTake c.text (m - total) ++ "..."]
      else c.text :: simpleConcatGo m cs (total + c.text.length)) =
    (if m < total + c.text.length then [pyTake c.text (m - total) ++ "..."]
      else c.text :: simpleConcatGo m cs (total + c.text.length))
  rfl

/-- The fallback concatenation answer is non-empty whenever at least one
chunk with non-empty text is supplied. -/
theorem simple_concat_answer_ne_empty (cs : List GChunk) (m : Nat) (hne : cs ≠ [])
    (htext : ∀ c ∈ cs, c.text ≠ "") :
    simple_concat_answer cs m ≠ "" := by
  obtain ⟨c, rest, rfl⟩ := List.exists_cons_of_ne_nil hne
  rw [simple_concat_answer, simpleConcatGo_cons]
  by_cases h : m < 0 + c.text.length
  · rw [if_pos h]
    intro heq
    have hlen : (joinSep " " [pyTake c.text (m - 0) ++ "..."]).length = 0 := by
      rw [heq]
      rfl
    have h1 : joinSep " " [pyTake c.text (m - 0) ++ "..."] = pyTake c.text (m - 0) ++ "..." := rfl
    rw [h1, String.length_append] at hlen
    have h3 : ("..." : String).length = 3 := by decide
    omega
  · rw [if_neg h]
    exact joinSep_ne_empty _ _ _ (htext c (List.mem_cons_self c rest))

/-- C2: a second call of `generate_expert_answer` with the identical query
string returns the identical `(answer, chunks)` pair and performs neither a
retrieval call nor a model invocation; the cache key is the raw query
string, so any other query string (any difference of case or whitespace)
misses a cache holding only the first query. -/
theorem cache_idempotent_second_call (retrieve : String → List GChunk)
    (invoke : String → Except String String) (s : ScholarState) (q : String)
    (hne : retrieve q ≠ []) :
    ((generate_expert_answer retrieve invoke
        (generate_expert_answer retrieve invoke s q).state q).answer
        = (generate_expert_answer retrieve invoke s q).answer ∧
     (generate_expert_answer retrieve invoke
        (generate_expert_answer retrieve invoke s q).state q).chunks
        = (generate_expert_answer retrieve invoke s q).chunks ∧
     (generate_expert_answer retrieve invoke
        (generate_expert_answer retrieve invoke s q).state q).retrievalCalled = false ∧
     (generate_expert_answer retrieve invoke
        (generate_expert_answer retrieve invoke s q).state q).promptSent = none) ∧
    (∀ (p : String × List GChunk) (q2 : String), q2 ≠ q →
      (generate_expert_answer retrieve invoke ⟨[(q, p)]⟩ q2).retrievalCalled = true) := by
  constructor
  · cases hc : cacheLookup s q with
    | some v =>
      obtain ⟨a, cs⟩ := v
      simp [generate_expert_answer, hc]
    | none =>
      have hni : (retrieve q).isEmpty = false := by simp [hne]
      simp [generate_expert_answer, hc, hni, cacheLookup_cacheInsert]
  · intro p q2 hq2
    have hl : cacheLookup ⟨[(q, p)]⟩ q2 = none := by
      simp [cacheLookup, List.find?, Ne.symm hq2]
    cases h2 : (retrieve q2).isEmpty <;> simp [generate_expert_answer, hl, h2]

/-- C4: when the cache misses and retrieval returns no chunks,
`generate_expert_answer` returns the fixed sentinel answer with an empty
chunk list, leaves the cache untouched, and a subsequent call with the same
query calls the retriever again. -/
theorem empty_retrieval_sentinel_uncached (retrieve : String → List GChunk)
    (invoke : String → Except String String) (s : ScholarState) (q : String)
    (hmiss : cacheLookup s q = none) (hempty : retrieve q = []) :
    (generate_expert_answer retrieve invoke s q).answer
      = "No relevant papers found for this query." ∧
    (generate_expert_answer retrieve invoke s q).chunks = [] ∧
    (generate_expert_answer retrieve invoke s q).state = s ∧
    (generate_expert_answer retrieve invoke
      (generate_expert_answer retrieve invoke s q).state q).retrievalCalled = true := by
  simp [generate_expert_answer, hmiss, hempty]

/-- Witness for C4 at a concrete empty-retrieval configuration. -/
theorem empty_retrieval_sentinel_uncached_witness :
    (generate_expert_answer (fun _ => []) (fun _ => Except.ok "ans")
        ⟨[]⟩ "what is ridge regression").answer
      = "No relevant papers found for this query." ∧
    (generate_expert_answer (fun _ => []) (fun _ => Except.ok "ans")
        ⟨[]⟩ "what is ridge regression").state = ⟨[]⟩ :=
  ⟨(empty_retrieval_sentinel_uncached (fun _ => []) (fun _ => Except.ok "ans")
      ⟨[]⟩ "what is ridge regression" rfl rfl).1,
   (empty_retrieval_sentinel_uncached (fun _ => []) (fun _ => Except.ok "ans")
      ⟨[]⟩ "what is ridge regression" rfl rfl).2.2.1⟩

/-- C5: when the cache misses, retrieval yields chunks (with non-empty
texts) and the model invocation fails, `generate_expert_answer` returns the
pure fallback concatenation of the retrieved chunk texts — a non-empty
answer — and writes that result to the cache under the original query. -/
theorem model_failure_fallback_cached (retrieve : String → List GChunk)
    (invoke : String → Except String String) (s : ScholarState) (q e : String)
    (hmiss : cacheLookup s q = none) (hne : retrieve q ≠ [])
    (htext : ∀ c ∈ retrieve q, c.text ≠ "")
    (herr : invoke (build_prompt q (retrieve q)) = Except.error e) :
    (generate_expert_answer retrieve invoke s q).answer
      = simple_concat_answer (retrieve q) 800 ∧
    (generate_expert_answer retrieve invoke s q).answer ≠ "" ∧
    (generate_expert_answer retrieve invoke s q).chunks = retrieve q ∧
    cacheLookup (generate_expert_answer retrieve invoke s q).state q
      = some ((generate_expert_answer retrieve invoke s q).answer,
              (generate_expert_answer retrieve invoke s q).chunks) := by
  have hni : (retrieve q).isEmpty = false := by simp [hne]
  refine ⟨?_, ?_, ?_, ?_⟩
  · simp [generate_expert_answer, hmiss, hni, herr]
  · simp only [generate_expert_answer, hmiss, hni]
    simp [herr, simple_concat_answer_ne_empty (retrieve q) 800 hne htext]
  · simp [generate_expert_answer, hmiss, hni, herr]
  · simp [generate_expert_answer, hmiss, hni, herr, cacheLookup_cacheInsert]

/-- Witness for C5 at a concrete failing-model configuration. -/
theorem model_failure_fallback_cached_witness :
    (generate_expert_answer (fun _ => [⟨"some chunk text", none, "chunk_0"⟩])
        (fun _ => Except.error "quota") ⟨[]⟩ "what is lasso").answer
      = simple_concat_answer [⟨"some chunk text", none, "chunk_0"⟩] 800 ∧
    (generate_expert_answer (fun _ => [⟨"some chunk text", none, "chunk_0"⟩])
        (fun _ => Except.error "quota") ⟨[]⟩ "what is lasso").answer ≠ "" :=
  ⟨(model_failure_fallback_cached (fun _ => [⟨"some chunk text", none, "chunk_0"⟩])
      (fun _ => Except.error "quota") ⟨[]⟩ "what is lasso" "quota" rfl (by decide)
      (by decide) rfl).1,
   (model_failure_fallback_cached (fun _ => [⟨"some chunk text", none, "chunk_0"⟩])
      (fun _ => Except.error "quota") ⟨[]⟩ "what is lasso" "quota" rfl (by decide)
      (by decide) rfl).2.1⟩

/-- Witness for C2 at a concrete configuration: the second identical call
skips retrieval, and a query differing only in case misses the cache. -/
theorem cache_idempotent_second_call_witness :
    ((generate_expert_answer (fun _ => [⟨"evidence text", none, "c0"⟩])
        (fun _ => Except.ok "a generated answer")
        ((generate_expert_answer (fun _ => [⟨"evidence text", none, "c0"⟩])
          (fun _ => Except.ok "a generated answer") ⟨[]⟩ "Explain LASSO").state)
        "Explain LASSO").retrievalCalled = false) ∧
    ((generate_expert_answer (fun _ => [⟨"evidence text", none, "c0"⟩])
        (fun _ => Except.ok "a generated answer")
        ⟨[("Explain LASSO", ("a cached answer", []))]⟩ "explain lasso").retrievalCalled = true) :=
  ⟨(cache_idempotent_second_call (fun _ => [⟨"evidence text", none, "c0"⟩])
      (fun _ => Except.ok "a generated answer") ⟨[]⟩ "Explain LASSO" (by decide)).1.2.2.1,
   (cache_idempotent_second_call (fun _ => [⟨"evidence text", none, "c0"⟩])
      (fun _ => Except.ok "a generated answer") ⟨[]⟩ "Explain LASSO" (by decide)).2
      ("a cached answer", []) "explain lasso" (by decide)⟩

/-- Counterexample to C3 as stated: on a cache miss with two retrieved
chunks whose similarity scores are ascending, the prompt sent to the model
numbers the chunks in their retrieved order, not in the descending-score
post-assembly order — the source computes `_prepare_context` but discards
its result and builds the prompt from the raw retrieved list. -/
theorem prompt_not_assembled_counterexample :
    (generate_expert_answer
        (fun _ => [⟨"low score text", some ⟨some 1⟩, "c0"⟩,
                   ⟨"high score text", some ⟨some 2⟩, "c1"⟩])
        (fun _ => Except.ok "ans") ⟨[]⟩ "Compare ridge and LASSO").promptSent
      ≠ some (build_prompt "Compare ridge and LASSO"
          (sort_chunks_by_relevance (deduplicate_chunks
            [⟨"low score text", some ⟨some 1⟩, "c0"⟩,
             ⟨"high score text", some ⟨some 2⟩, "c1"⟩]))) := by
  decide

/-- C3 (amended): on a cache miss with non-empty retrieval, the prompt sent
to the model is the template applied to the query and the numbered evidence
list `[1]..[n]` of the retrieved chunks in their original retrieved order;
the Context Assembler (`_prepare_context`) is computed but its output is
discarded and does not shape the prompt. -/
theorem prompt_uses_retrieved_order (retrieve : String → List GChunk)
    (invoke : String → Except String String) (s : ScholarState) (q : String)
    (hmiss : cacheLookup s q = none) (hne : retrieve q ≠ []) :
    (generate_expert_answer retrieve invoke s q).promptSent
      = some (PROMPT_HEAD ++ q ++ PROMPT_MID
          ++ joinSep "\n\n" (numberedLines (retrieve q) 0) ++ PROMPT_TAIL) := by
  have hni : (retrieve q).isEmpty = false := by simp [hne]
  simp [generate_expert_answer, hmiss, hni, build_prompt, numbered_context]

/-- Witness for the amended C3 at a concrete configuration. -/
theorem prompt_uses_retrieved_order_witness :
    (generate_expert_answer (fun _ => [⟨"only chunk", none, "c0"⟩])
        (fun _ => Except.ok "ans") ⟨[]⟩ "What is ridge regression").promptSent
      = some (PROMPT_HEAD ++ "What is ridge regression" ++ PROMPT_MID
          ++ joinSep "\n\n" (numberedLines [⟨"only chunk", none, "c0"⟩] 0) ++ PROMPT_TAIL) :=
  prompt_uses_retrieved_order (fun _ => [⟨"only chunk", none, "c0"⟩])
    (fun _ => Except.ok "ans") ⟨[]⟩ "What is ridge regression" rfl (by decide)

/-- Budget invariant of the fallback concatenation loop: starting under the
budget, either every chunk text fits and is passed through whole, or the
emitted pieces consist of whole texts plus one final cut text with an
appended `"..."`, and the cut happens exactly at the budget. -/
theorem simpleConcatGo_spec (m : Nat) :
    ∀ (cs : List GChunk) (total : Nat), total ≤ m →
      (if (cs.map (fun c => c.text.length)).sum + total ≤ m
       then simpleConcatGo m cs total = cs.map (fun c => c.text)
       else ((simpleConcatGo m cs total).map String.length).sum = m - total + 3 ∧
         ∃ pre x, simpleConcatGo m cs total = pre ++ [x ++ "..."] ∧
           (pre.map String.length).sum + x.length = m - total) := by
  intro cs
  induction cs with
  | nil =>
    intro total htot
    rw [if_pos (by simpa using htot)]
    rfl
  | cons c cs ih =>
    intro total htot
    rw [simpleConcatGo_cons]
    by_cases h : m < total + c.text.length
    · rw [if_pos h]
      rw [if_neg (by
        simp only [List.map_cons, List.sum_cons]
        omega)]
      have htake : (pyTake c.text (m - total)).length = m - total := by
        show (c.text.data.take (m - total)).length = m - total
        rw [List.length_take]
        have : m - total < c.text.length := by omega
        have hlen : (m - total) ≤ c.text.data.length := Nat.le_of_lt this
        omega
      constructor
      · simp only [List.map_cons, List.map_nil, List.sum_cons, List.sum_nil]
        rw [String.length_append, htake]
        have h3 : ("..." : String).length = 3 := by decide
        omega
      · exact ⟨[], pyTake c.text (m - total), rfl, by simpa using htake⟩
    · rw [if_neg h]
      have htot2 : total + c.text.length ≤ m := by omega
      have := ih (total + c.text.length) htot2
      by_cases hfit : (cs.map (fun c => c.text.length)).sum + (total + c.text.length) ≤ m
      · rw [if_pos hfit] at this
        rw [if_pos (by
          simp only [List.map_cons, List.sum_cons]
          omega)]
        rw [this, List.map_cons]
      · rw [if_neg hfit] at this
        rw [if_neg (by
          simp only [List.map_cons, List.sum_cons]
          omega)]
        obtain ⟨hsum, pre, x, hgo, hcut⟩ := this
        constructor
        · simp only [List.map_cons, List.sum_cons, hsum]
          omega
        · refine ⟨c.text :: pre, x, ?_, ?_⟩
          · rw [hgo]
            rfl
          · simp only [List.map_cons, List.sum_cons]
            omega

/-- C6 (amended): the primary context path (`_prepare_context`) applies no
truncation — the combined evidence text length is exactly the sum of the
assembled chunk text lengths plus one single-space separator between
consecutive chunks — while the fallback concatenation path enforces the
source default budget of 800 characters: all texts pass through whole when
their total length is within 800, and otherwise the emitted chunk text is
cut at exactly 800 characters with a visible `"..."` marker appended. -/
theorem context_no_truncation_fallback_budget (chunks : List GChunk) :
    (prepare_context chunks).length
      = ((sort_chunks_by_relevance (deduplicate_chunks chunks)).map
          (fun c => c.text.length)).sum
        + ((sort_chunks_by_relevance (deduplicate_chunks chunks)).length - 1) ∧
    simple_concat_answer chunks 800 = joinSep " " (simpleConcatGo 800 chunks 0) ∧
    (if (chunks.map (fun c => c.text.length)).sum ≤ 800
     then simpleConcatGo 800 chunks 0 = chunks.map (fun c => c.text)
     else ((simpleConcatGo 800 chunks 0).map String.length).sum = 803 ∧
       ∃ pre x, simpleConcatGo 800 chunks 0 = pre ++ [x ++ "..."] ∧
         (pre.map String.length).sum + x.length = 800) := by
  refine ⟨?_, rfl, ?_⟩
  · rw [prepare_context, joinSep_length]
    have hsep : (" " : String).length = 1 := by decide
    rw [hsep, Nat.one_mul, List.length_map, List.map_map]
    rfl
  · have := simpleConcatGo_spec 800 chunks 0 (by omega)
    simpa using this

/-- Counterexample to C6 as stated: a single 1000-character chunk is far
below the claimed default budget of about 4096 characters, so the claim
implies the fallback answer passes it through untruncated; the code cuts it
at its actual default budget of 800 characters and appends `"..."`,
producing an 803-character answer. -/
theorem fallback_budget_counterexample :
    simple_concat_answer [⟨String.mk (List.replicate 1000 'a'), none, "c0"⟩] 800
        ≠ String.mk (List.replicate 1000 'a') ∧
    (simple_concat_answer [⟨String.mk (List.replicate 1000 'a'), none, "c0"⟩] 800).length
        = 803 := by
  have hlen : (String.mk (List.replicate 1000 'a')).length = 1000 := by
    show (List.replicate 1000 'a').length = 1000
    rw [List.length_replicate]
  have hgo : simpleConcatGo 800 [⟨String.mk (List.replicate 1000 'a'), none, "c0"⟩] 0
      = [pyTake (String.mk (List.replicate 1000 'a')) 800 ++ "..."] := by
    rw [simpleConcatGo_cons]
    rw [if_pos (by rw [hlen]; omega)]
  have htake : (pyTake (String.mk (List.replicate 1000 'a')) 800).length = 800 := by
    show ((List.replicate 1000 'a').take 800).length = 800
    rw [List.length_take, List.length_replicate]
    decide
  have hres : (simple_concat_answer [⟨String.mk (List.replicate 1000 'a'), none, "c0"⟩] 800).length
      = 803 := by
    rw [simple_concat_answer, hgo]
    have hj : joinSep " " [pyTake (String.mk (List.replicate 1000 'a')) 800 ++ "..."]
        = pyTake (String.mk (List.replicate 1000 'a')) 800 ++ "..." := rfl
    rw [hj, String.length_append, htake]
    rfl
  refine ⟨?_, hres⟩
  intro heq
  rw [heq, hlen] at hres
  omega

/-- Every record emitted for one section carries that section's label. -/
theorem mkChunkRecords_sectionLabel (pid title : String) (authors : List String)
    (sec : String) :
    ∀ (cs : List String) (idx : Nat) (r : ChunkData),
      r ∈ mkChunkRecords pid title authors sec cs idx → r.sectionLabel = sec := by
  intro cs
  induction cs with
  | nil =>
    intro idx r hr
    simp [mkChunkRecords] at hr
  | cons c cs ih =>
    intro idx r hr
    rw [mkChunkRecords] at hr
    rcases List.mem_cons.mp hr with rfl | hr
    · rfl
    · exact ih (idx + 1) r hr

/-- Skipping the blacklisted sections inside the emission loop is the same
as removing them from the section list beforehand, for any starting index. -/
theorem processPaperSectionsGo_filter (pid title : String) (authors : List String) :
    ∀ (sections : List (String × String)) (idx : Nat),
      processPaperSectionsGo pid title authors sections idx
        = processPaperSectionsGo pid title authors
            (sections.filter (fun s => decide (s.1 ∉ SKIP_SECTIONS))) idx := by
  intro sections
  induction sections with
  | nil => intro idx; rfl
  | cons st rest ih =>
    intro idx
    obtain ⟨sec, text⟩ := st
    by_cases h : sec ∈ SKIP_SECTIONS
    · rw [processPaperSectionsGo, if_pos h, List.filter_cons,
        if_neg (by simp [h]), ih]
    · rw [processPaperSectionsGo, if_neg h, List.filter_cons,
        if_pos (by simp [h]), processPaperSectionsGo, if_neg h]
      simp only [ih]

/-- C7: sections labeled `references`, `acknowledgements` or
`acknowledgments` are discarded before chunking — the emitted chunk stream
equals the one obtained after deleting those sections from the input, so
their text contributes to no emitted chunk, and no emitted chunk carries one
of those labels. -/
theorem skip_sections_discarded (pid title : String) (authors : List String)
    (sections : List (String × String)) :
    process_paper_sections pid title authors sections
      = process_paper_sections pid title authors
          (sections.filter (fun s => decide (s.1 ∉ SKIP_SECTIONS))) ∧
    (process_paper_sections pid title authors sections).all
      (fun r => decide (r.sectionLabel ∉ SKIP_SECTIONS)) = true := by
  constructor
  · exact processPaperSectionsGo_filter pid title authors sections 0
  · rw [List.all_eq_true]
    show ∀ r ∈ processPaperSectionsGo pid title authors sections 0, _
    generalize 0 = idx
    induction sections generalizing idx with
    | nil =>
      intro r hr
      simp [processPaperSectionsGo] at hr
    | cons st rest ih =>
      intro r hr
      obtain ⟨sec, text⟩ := st
      by_cases h : sec ∈ SKIP_SECTIONS
      · rw [processPaperSectionsGo, if_pos h] at hr
        exact ih idx r hr
      · rw [processPaperSectionsGo, if_neg h] at hr
        rcases List.mem_append.mp hr with hr | hr
        · rw [decide_eq_true_eq]
          rw [mkChunkRecords_sectionLabel pid title authors sec _ idx r hr]
          exact h
        · exact ih _ r hr

/-- The source loop never emits more records than it consumes. -/
theorem ctsGo_length : ∀ (items : List PyItem) (seen : List SKey),
    (ctsGo items seen).length ≤ items.length := by
  intro items
  induction items with
  | nil => intro seen; simp [ctsGo]
  | cons it rest ih =>
    intro seen
    cases it with
    | other =>
      rw [ctsGo]
      exact Nat.le_succ_of_le (ih seen)
    | dict c =>
      rw [ctsGo]
      by_cases h : keyOf c ∈ seen
      · rw [if_pos h]
        exact Nat.le_succ_of_le (ih seen)
      · rw [if_neg h, List.length_cons, List.length_cons]
        exact Nat.succ_le_succ (ih _)

/-- C10: `chunks_to_sources` maps `None` and the empty sequence to the
empty list, and never returns more sources than input records (non-dict
records are skipped and duplicates are dropped). -/
theorem chunks_to_sources_empty_and_length :
    chunks_to_sources none = [] ∧
    chunks_to_sources (some []) = [] ∧
    ∀ items : List PyItem, (chunks_to_sources (some items)).length ≤ items.length := by
  refine ⟨rfl, rfl, ?_⟩
  intro items
  cases items with
  | nil => simp [chunks_to_sources]
  | cons it rest =>
    show (ctsGo (it :: rest) []).length ≤ (it :: rest).length
    exact ctsGo_length (it :: rest) []

/-- Unfolding equations for `dedupFirst`. -/
theorem dedupFirst_nil : dedupFirst [] = [] := by
  rw [dedupFirst]

/-- Unfolding equation for the cons case of `dedupFirst`. -/
theorem dedupFirst_cons (c : SChunk) (cs : List SChunk) :
    dedupFirst (c :: cs) = c :: dedupFirst (cs.filter (fun d => decide (keyOf d ≠ keyOf c))) := by
  rw [dedupFirst]

/-- Scanning for the first `v` stops exactly at the separator when the
prefix is `v`-free. -/
theorem takeWhileNeV (l2 : List Char) :
    ∀ l1 : List Char, (∀ c ∈ l1, c ≠ 'v') →
      (l1 ++ 'v' :: l2).takeWhile (fun c => c ≠ 'v') = l1 := by
  intro l1
  induction l1 with
  | nil =>
    intro _
    simp [List.takeWhile_cons]
  | cons c cs ih =>
    intro h
    have hc : c ≠ 'v' := h c (List.mem_cons_self c cs)
    have hcd : decide (c ≠ 'v') = true := by simp [hc]
    simp only [List.cons_append, List.takeWhile_cons]
    rw [hcd, if_pos rfl, ih (fun d hd => h d (List.mem_cons_of_mem c hd))]

/-- Python `split("v")[0]` strips a trailing version suffix when the base
identifier contains no `v` of its own. -/
theorem pySplitHeadV_strip_version (base suf : String) (h : ∀ c ∈ base.data, c ≠ 'v') :
    pySplitHeadV (base ++ "v" ++ suf) = base := by
  have hdata : (base ++ "v" ++ suf).data = base.data ++ 'v' :: suf.data := by
    rw [String.data_append, String.data_append]
    simp
  rw [pySplitHeadV, hdata, takeWhileNeV suf.data base.data h]

/-- The source loop with a seen-key set computes first-occurrence
deduplication of the remaining unseen dict records. -/
theorem ctsGo_eq_dedupFirst : ∀ (items : List PyItem) (seen : List SKey),
    ctsGo items seen
      = (dedupFirst ((dictRecords items).filter (fun c => decide (keyOf c ∉ seen)))).map srcOf := by
  intro items
  induction items with
  | nil =>
    intro seen
    rw [ctsGo]
    rw [show dictRecords [] = [] from rfl]
    rw [List.filter_nil, dedupFirst_nil, List.map_nil]
  | cons it rest ih =>
    intro seen
    cases it with
    | other =>
      rw [ctsGo, ih]
      rfl
    | dict c =>
      have hdict : dictRecords (PyItem.dict c :: rest) = c :: dictRecords rest := rfl
      rw [ctsGo, hdict, List.filter_cons]
      by_cases h : keyOf c ∈ seen
      · rw [if_pos h, if_neg (by simp [h]), ih]
      · rw [if_neg h, if_pos (by simp [h]), dedupFirst_cons, List.map_cons]
        congr 1
        rw [ih (keyOf c :: seen), List.filter_filter]
        exact congrArg (fun l => List.map srcOf (dedupFirst l))
          (List.filter_congr (fun d _ => by
            by_cases h1 : keyOf d = keyOf c <;> by_cases h2 : keyOf d ∈ seen <;>
              simp [h1, h2, List.mem_cons]))

/-- C9: when a record has no truthy explicit link but a truthy paper
identifier of the form `base ++ "v" ++ suffix` with a `v`-free base, the
resolver synthesizes the arXiv link for `base`; two records with ids
`1234.5678v1` and `1234.5678v2` and no link field collapse to exactly one
source whose link ends in `1234.5678`; and in general the output equals the
input's dict records deduplicated by key at first occurrence, in input
order. -/
theorem sources_dedup_spec :
    (∀ (c : SChunk) (base suf : String),
      truthyS (linkChain c) = false →
      orS (effMeta c).paper_id (effMeta c).id = some (base ++ "v" ++ suf) →
      (∀ ch ∈ base.data, ch ≠ 'v') →
      linkOf c = some ("https://arxiv.org/abs/" ++ base)) ∧
    chunks_to_sources (some
        [PyItem.dict { emptySChunk with
            metadata := some { emptySMeta with paper_id := some "1234.5678v1" } },
         PyItem.dict { emptySChunk with
            metadata := some { emptySMeta with paper_id := some "1234.5678v2" } }])
      = [{ paper_title := none, authors := none, sectionLabel := none,
           link := some "https://arxiv.org/abs/1234.5678" }] ∧
    (∀ items : List PyItem,
      chunks_to_sources (some items) = (dedupFirst (dictRecords items)).map srcOf) := by
  refine ⟨?_, by decide, ?_⟩
  · intro c base suf hfal hpid hbase
    show (if truthyS (linkChain c) then linkChain c
        else if truthyS (orS (effMeta c).paper_id (effMeta c).id) then
          some ("https://arxiv.org/abs/"
            ++ pySplitHeadV ((orS (effMeta c).paper_id (effMeta c).id).getD ""))
        else linkChain c) = some ("https://arxiv.org/abs/" ++ base)
    rw [hpid]
    have hne : base ++ "v" ++ suf ≠ "" := by
      intro heq
      have hl := congrArg String.length heq
      rw [String.length_append, String.length_append] at hl
      have hv : ("v" : String).length = 1 := rfl
      have h0 : ("" : String).length = 0 := rfl
      omega
    rw [if_neg (by simp [hfal]), if_pos (by simp [truthyS, hne])]
    show some ("https://arxiv.org/abs/" ++ pySplitHeadV (base ++ "v" ++ suf)) = _
    rw [pySplitHeadV_strip_version base suf hbase]
  · intro items
    cases items with
    | nil =>
      rw [show dictRecords [] = [] from rfl, dedupFirst_nil, List.map_nil]
      rfl
    | cons it rest =>
      show ctsGo (it :: rest) [] = _
      rw [ctsGo_eq_dedupFirst (it :: rest) []]
      congr 2
      apply List.filter_eq_self.mpr
      intro a _
      simp

/-- Witness for C9 at the concrete record carrying id `1234.5678v1`. -/
theorem sources_dedup_spec_witness :
    linkOf { emptySChunk with
        metadata := some { emptySMeta with paper_id := some "1234.5678v1" } }
      = some ("https://arxiv.org/abs/" ++ "1234.5678") :=
  sources_dedup_spec.1
    { emptySChunk with metadata := some { emptySMeta with paper_id := some "1234.5678v1" } }
    "1234.5678" "1" (by decide) (by decide) (by decide)

/-- Lookup after `sections[k] = []` at the same key. -/
theorem dictFind_dictSet_self (d : SecDict) (k : String) :
    dictFind (dictSet d k) k = some [] := by
  induction d with
  | nil => simp [dictSet, dictFind, List.find?]
  | cons kv rest ih =>
    obtain ⟨k1, v1⟩ := kv
    by_cases h : k1 = k
    · subst h
      simp [dictSet, dictFind, List.find?]
    · show dictFind (if k1 = k then (k, []) :: rest else (k1, v1) :: dictSet rest k) k = some []
      rw [if_neg h, dictFind, List.find?_cons_of_neg _ (by simpa using h)]
      exact ih

/-- Lookup after `sections[k2] = []` at a different key is unchanged. -/
theorem dictFind_dictSet_ne (d : SecDict) (k k2 : String) (h : k ≠ k2) :
    dictFind (dictSet d k2) k = dictFind d k := by
  induction d with
  | nil =>
    simp [dictSet, dictFind, List.find?, Ne.symm h]
  | cons kv rest ih =>
    obtain ⟨k1, v1⟩ := kv
    by_cases h1 : k1 = k2
    · subst h1
      show dictFind (if k1 = k1 then (k1, []) :: rest else _) k = _
      rw [if_pos rfl, dictFind, dictFind,
        List.find?_cons_of_neg _ (by simpa using Ne.symm h),
        List.find?_cons_of_neg _ (by simpa using Ne.symm h)]
    · show dictFind (if k1 = k2 then (k2, []) :: rest else (k1, v1) :: dictSet rest k2) k = _
      rw [if_neg h1]
      by_cases h2 : k1 = k
      · subst h2
        rw [dictFind, dictFind, List.find?_cons_of_pos _ (by simp),
          List.find?_cons_of_pos _ (by simp)]
      · rw [dictFind, dictFind, List.find?_cons_of_neg _ (by simpa using h2),
          List.find?_cons_of_neg _ (by simpa using h2)]
        exact ih

/-- Lookup after `sections[k].append(line)` at the same key. -/
theorem dictFind_dictAppend_self (d : SecDict) (k line : String) :
    dictFind (dictAppend d k line) k = (dictFind d k).map (fun v => v ++ [line]) := by
  induction d with
  | nil => simp [dictAppend, dictFind, List.find?]
  | cons kv rest ih =>
    obtain ⟨k1, v1⟩ := kv
    by_cases h : k1 = k
    · subst h
      show dictFind (if k1 = k1 then (k1, v1 ++ [line]) :: rest else _) k1 = _
      rw [if_pos rfl, dictFind, dictFind, List.find?_cons_of_pos _ (by simp),
        List.find?_cons_of_pos _ (by simp)]
      rfl
    · show dictFind (if k1 = k then (k1, v1 ++ [line]) :: rest
          else (k1, v1) :: dictAppend rest k line) k = _
      rw [if_neg h, dictFind, dictFind, List.find?_cons_of_neg _ (by simpa using h),
        List.find?_cons_of_neg _ (by simpa using h)]
      exact ih

/-- Lookup after `sections[k2].append(line)` at a different key is
unchanged. -/
theorem dictFind_dictAppend_ne (d : SecDict) (k k2 line : String) (h : k ≠ k2) :
    dictFind (dictAppend d k2 line) k = dictFind d k := by
  induction d with
  | nil => simp [dictAppend, dictFind, List.find?]
  | cons kv rest ih =>
    obtain ⟨k1, v1⟩ := kv
    by_cases h1 : k1 = k2
    · subst h1
      show dictFind (if k1 = k1 then (k1, v1 ++ [line]) :: rest else _) k = _
      rw [if_pos rfl, dictFind, dictFind,
        List.find?_cons_of_neg _ (by simpa using Ne.symm h),
        List.find?_cons_of_neg _ (by simpa using Ne.symm h)]
    · show dictFind (if k1 = k2 then (k1, v1 ++ [line]) :: rest
          else (k1, v1) :: dictAppend rest k2 line) k = _
      rw [if_neg h1]
      by_cases h2 : k1 = k
      · subst h2
        rw [dictFind, dictFind, List.find?_cons_of_pos _ (by simp),
          List.find?_cons_of_pos _ (by simp)]
      · rw [dictFind, dictFind, List.find?_cons_of_neg _ (by simpa using h2),
          List.find?_cons_of_neg _ (by simpa using h2)]
        exact ih

/-- Unfolding equation for the cons case of `splitGo`. -/
theorem splitGo_cons (l : String) (ls : List String) (cur : String) (secs : SecDict) :
    splitGo (l :: ls) cur secs =
      if isHeaderLine l then splitGo ls (cleanLine l) (dictSet secs (cleanLine l))
      else splitGo ls cur (dictAppend secs cur l) := by
  show (if isHeaderLine l then splitGo ls (cleanLine l) (dictSet secs (cleanLine l))
      else splitGo ls cur (dictAppend secs cur l)) =
    (if isHeaderLine l then splitGo ls (cleanLine l) (dictSet secs (cleanLine l))
      else splitGo ls cur (dictAppend secs cur l))
  rfl

/-- Header-labels of a line list, cons case for a header line. -/
theorem headerLabels_cons_header (l : String) (ls : List String) (h : isHeaderLine l = true) :
    headerLabels (l :: ls) = cleanLine l :: headerLabels ls := by
  simp [headerLabels, List.filterMap_cons, h]

/-- Header-labels of a line list, cons case for a body line. -/
theorem headerLabels_cons_body (l : String) (ls : List String) (h : isHeaderLine l = false) :
    headerLabels (l :: ls) = headerLabels ls := by
  simp [headerLabels, List.filterMap_cons, h]

/-- A detected header's cleaned label never equals the initial label
`"unknown"`: no vocabulary entry is a prefix of `"unknown"`. -/
theorem header_cleanLine_ne_unknown (l : String) (h : isHeaderLine l = true) :
    cleanLine l ≠ "unknown" := by
  intro heq
  rw [isHeaderLine, Bool.and_eq_true, List.any_eq_true] at h
  obtain ⟨⟨hd, hmem, hpref⟩, _⟩ := h
  rw [heq] at hpref
  have hall : ∀ hdr ∈ SECTION_HEADERS,
      hdr.data.isPrefixOf ("unknown" : String).data = false := by decide
  rw [hall hd hmem] at hpref
  exact Bool.false_ne_true hpref

/-- Membership in the header labels excludes the label `"unknown"`. -/
theorem mem_headerLabels_ne_unknown (ls : List String) (k : String)
    (h : k ∈ headerLabels ls) : k ≠ "unknown" := by
  rw [headerLabels, List.mem_filterMap] at h
  obtain ⟨l, _, heq⟩ := h
  by_cases hh : isHeaderLine l
  · rw [if_pos hh] at heq
    cases heq
    exact header_cleanLine_ne_unknown l hh
  · rw [if_neg hh] at heq
    cases heq

/-- Central invariant of the segmenter loop: provided the current label is
a key of the dictionary, the final value at any key `k` is (1) the body
after the last header labeled `k` when such a header exists in the remaining
lines, else (2) the stored bucket extended with the leading non-header run
when `k` is the current label, else (3) the stored value unchanged. -/
theorem splitGo_dictFind (k : String) :
    ∀ (ls : List String) (cur : String) (secs : SecDict),
      (dictFind secs cur).isSome = true →
      dictFind (splitGo ls cur secs) k =
        (if k ∈ headerLabels ls then some (bodyAfterLast k ls)
         else if k = cur then
           (dictFind secs k).map (fun v => v ++ ls.takeWhile (fun x => !(isHeaderLine x)))
         else dictFind secs k) := by
  intro ls
  induction ls with
  | nil =>
    intro cur secs _
    rw [show splitGo [] cur secs = secs from rfl,
      show headerLabels [] = [] from rfl,
      if_neg (List.not_mem_nil k)]
    by_cases hk : k = cur
    · rw [if_pos hk, show List.takeWhile (fun x => !(isHeaderLine x)) [] = [] from rfl]
      cases dictFind secs k <;> simp
    · rw [if_neg hk]
  | cons l ls ih =>
    intro cur secs hcur
    by_cases hl : isHeaderLine l
    · rw [splitGo_cons, if_pos hl,
        ih (cleanLine l) (dictSet secs (cleanLine l))
          (by rw [dictFind_dictSet_self]; rfl),
        headerLabels_cons_header l ls hl]
      by_cases ha : k ∈ headerLabels ls
      · rw [if_pos ha, if_pos (List.mem_cons_of_mem _ ha), bodyAfterLast, if_pos ha]
      · by_cases hb : k = cleanLine l
        · subst hb
          rw [if_neg ha, if_pos rfl, dictFind_dictSet_self,
            if_pos (List.mem_cons_self _ _), bodyAfterLast, if_neg ha,
            if_pos (by simp [hl])]
          simp
        · rw [if_neg ha, if_neg hb, dictFind_dictSet_ne secs k (cleanLine l) hb,
            if_neg (by
              rw [List.mem_cons]
              push_neg
              exact ⟨hb, ha⟩)]
          by_cases hc : k = cur
          · rw [if_pos hc]
            have ht : (l :: ls).takeWhile (fun x => !(isHeaderLine x)) = [] := by
              simp only [List.takeWhile_cons]
              simp [hl]
            rw [ht]
            cases dictFind secs k <;> simp
          · rw [if_neg hc]
    · have hlf : isHeaderLine l = false := by simpa using hl
      rw [splitGo_cons, if_neg hl,
        ih cur (dictAppend secs cur l)
          (by
            rw [dictFind_dictAppend_self]
            cases hx : dictFind secs cur with
            | none => rw [hx] at hcur; simp at hcur
            | some v => simp),
        headerLabels_cons_body l ls hlf]
      by_cases ha : k ∈ headerLabels ls
      · rw [if_pos ha, if_pos ha, bodyAfterLast, if_pos ha]
      · rw [if_neg ha, if_neg ha]
        by_cases hc : k = cur
        · subst hc
          rw [if_pos rfl, if_pos rfl, dictFind_dictAppend_self]
          have ht : (l :: ls).takeWhile (fun x => !(isHeaderLine x))
              = l :: ls.takeWhile (fun x => !(isHeaderLine x)) := by
            simp only [List.takeWhile_cons]
            simp [hlf]
          rw [ht]
          cases dictFind secs k <;> simp
        · rw [if_neg hc, if_neg hc, dictFind_dictAppend_ne secs k cur l hc]

/-- Lookup commutes with the final per-bucket join of
`split_into_sections`. -/
theorem sectionsFind_map (d : SecDict) (k : String) :
    sectionsFind (d.map (fun kv => (kv.1, joinSep " " kv.2))) k
      = (dictFind d k).map (fun v => joinSep " " v) := by
  induction d with
  | nil => rfl
  | cons kv rest ih =>
    obtain ⟨k1, v1⟩ := kv
    by_cases h : k1 = k
    · subst h
      rw [List.map_cons, sectionsFind, dictFind, List.find?_cons_of_pos _ (by simp),
        List.find?_cons_of_pos _ (by simp)]
      rfl
    · rw [List.map_cons, sectionsFind, dictFind,
        List.find?_cons_of_neg _ (by simpa using h),
        List.find?_cons_of_neg _ (by simpa using h)]
      exact ih

/-- C8: a line opens a new section iff its trimmed lowercased form starts
with a vocabulary entry and is under 50 characters (that test is
`isHeaderLine`, and the produced labels are exactly `"unknown"` plus the
cleaned header labels); the lines before the first header accumulate under
`"unknown"`; and each header label's text is the run of non-header lines
after its most recent (last) occurrence, up to the next header. -/
theorem split_into_sections_spec (text : String) :
    (∀ k, sectionsFind (split_into_sections text) k ≠ none
        ↔ (k = "unknown" ∨ k ∈ headerLabels (pySplitLines text))) ∧
    sectionsFind (split_into_sections text) "unknown"
      = some (joinSep " " ((pySplitLines text).takeWhile (fun l => !(isHeaderLine l)))) ∧
    (∀ k, k ∈ headerLabels (pySplitLines text) →
      sectionsFind (split_into_sections text) k
        = some (joinSep " " (bodyAfterLast k (pySplitLines text)))) := by
  have hmain : ∀ k, dictFind (splitGo (pySplitLines text) "unknown" [("unknown", [])]) k
      = (if k ∈ headerLabels (pySplitLines text) then
           some (bodyAfterLast k (pySplitLines text))
         else if k = "unknown" then
           (dictFind [("unknown", [])] k).map
             (fun v => v ++ (pySplitLines text).takeWhile (fun x => !(isHeaderLine x)))
         else dictFind [("unknown", [])] k) :=
    fun k => splitGo_dictFind k (pySplitLines text) "unknown" [("unknown", [])] (by decide)
  refine ⟨?_, ?_, ?_⟩
  · intro k
    rw [split_into_sections, sectionsFind_map, hmain k]
    by_cases ha : k ∈ headerLabels (pySplitLines text)
    · rw [if_pos ha]
      simp [ha]
    · rw [if_neg ha]
      by_cases hu : k = "unknown"
      · rw [if_pos hu]
        subst hu
        simp [dictFind, List.find?]
      · rw [if_neg hu]
        have hne : ("unknown" : String) ≠ k := Ne.symm hu
        rw [dictFind, List.find?_cons_of_neg _ (by simpa using hne)]
        simp [hu, ha]
  · have hu : ("unknown" : String) ∉ headerLabels (pySplitLines text) := by
      intro hmem
      exact mem_headerLabels_ne_unknown _ _ hmem rfl
    rw [split_into_sections, sectionsFind_map, hmain "unknown", if_neg hu, if_pos rfl]
    simp [dictFind, List.find?]
  · intro k hk
    rw [split_into_sections, sectionsFind_map, hmain k, if_pos hk]
    rfl

/-- Witness for C8 on a concrete six-line paper text. -/
theorem split_into_sections_spec_witness :
    sectionsFind (split_into_sections
        "Preamble line\nIntroduction\nbody a\nbody b\nConclusion\nclosing words")
        "introduction"
      = some (joinSep " " (bodyAfterLast "introduction" (pySplitLines
          "Preamble line\nIntroduction\nbody a\nbody b\nConclusion\nclosing words"))) :=
  (split_into_sections_spec
      "Preamble line\nIntroduction\nbody a\nbody b\nConclusion\nclosing words").2.2
    "introduction" (by decide)
